import Mathlib

/-!
Verification of the Peppol invoice status-update script.

This file gives a shallow embedding of the pure core of the script: the
status resolver, the per-document status analysis, the status-submission
error translation, the regex-based XML field extraction, the outbound
index and transmission-id matching, the date-based partitioning, the
invoice-number sort comparator, and the part of the report generator's
control flow that decides which documents receive a status submission.
Network calls are modelled by explicit environment functions (for example
the status list fetched for a document id), and JavaScript values by
their Lean counterparts: strings stay strings, `Date` values become
explicit year/month/day/millisecond records (with a separate constructor
for the Invalid Date produced by parsing an unrecognised string),
timestamps become natural numbers of milliseconds, and the falsiness of
`null`/`undefined`/`""` is made explicit at each use of `||`.
-/

namespace Peppol

/-- JS `s || "-"` for a string value: the empty string is falsy and is
replaced by the default, any other string is kept. -/
def jsOrDash (s : String) : String := if s = "" then "-" else s

/-- JS `o || d` for an optional string: `null`/`undefined` and the empty
string are falsy and give the default `d`. -/
def jsOrStr (o : Option String) (d : String) : String :=
  match o with
  | some s => if s = "" then d else s
  | none => d

/-- The (year, month, day) triple of a JS `Date` as read back by
`getFullYear()`, `getMonth()` (0-based: November is 10) and `getDate()`. -/
structure JsDateOnly where
  year : Int
  month : Nat
  day : Nat
deriving DecidableEq

/-- A valid JS `Date` value: its date triple plus the time of day in
milliseconds.  Triples read off valid dates are valid calendar dates, so
comparing `new Date(year, month, day)` values is the lexicographic order
on the triple. -/
structure JsDateTime where
  year : Int
  month : Nat
  day : Nat
  msOfDay : Nat
deriving DecidableEq

/-- A JS `Date`: either valid, or the Invalid Date produced by `new Date`
on an unrecognised string.  Invalid Date is truthy, but every ordering
comparison on it is false. -/
inductive JsDate where
  | invalid : JsDate
  | valid : JsDateTime → JsDate
deriving DecidableEq

/-- The date-only truncation
`new Date(d.getFullYear(), d.getMonth(), d.getDate())` used in
`splitByDate`. -/
def JsDateTime.dateOnly (t : JsDateTime) : JsDateOnly := ⟨t.year, t.month, t.day⟩

/-- `new Date(a.year, a.month, a.day) >= new Date(b.year, b.month, b.day)`
for valid date triples: the lexicographic order. -/
def dateOnlyGe (a b : JsDateOnly) : Bool :=
  if a.year ≠ b.year then a.year > b.year
  else if a.month ≠ b.month then a.month > b.month
  else a.day ≥ b.day

/-- An outbound document as used by the matching code: its id and its
`attributes.transmissionId`, with `""` modelling a missing or otherwise
falsy transmission id. -/
structure OutboundDoc where
  id : String
  transmissionId : String
deriving DecidableEq

/-- An inbound document as used by the matching and partitioning code:
its id, its `attributes.transmissionId` (`""` when missing), and
`new Date(attributes.createdAt)`. -/
structure InboundDoc where
  id : String
  transmissionId : String
  createdAt : JsDateTime
deriving DecidableEq

/-- The `attributes` of a business-status record: `code` and
`technicalStatus` (with `""` modelling a missing or falsy value) and the
numeric value of `new Date(attributes.createdAt)` in milliseconds. -/
structure StatusRecord where
  code : String
  technicalStatus : String
  createdAt : Nat
deriving DecidableEq

/-- The result shape of `StatusResolver.getLatestStatus`. -/
structure LatestStatus where
  code : String
  technicalStatus : String
deriving DecidableEq

/-- The element that the descending stable sort
`[...statuses].sort((a, b) => new Date(b.createdAt) - new Date(a.createdAt))`
places first, i.e. the first element of maximal `createdAt` (JS `sort` is
stable, so among equal keys the original order is kept). -/
def latestBy (s : StatusRecord) (rest : List StatusRecord) : StatusRecord :=
  rest.foldl (fun best r => if best.createdAt < r.createdAt then r else best) s

/-- `StatusResolver.getLatestStatus`: the sentinel for an empty list,
otherwise the `code`/`technicalStatus` of the first record of maximal
`createdAt`, each defaulted to `"-"` when falsy. -/
def getLatestStatus (statuses : List StatusRecord) : LatestStatus :=
  match statuses with
  | [] => ⟨"-", "-"⟩
  | s :: rest => ⟨jsOrDash (latestBy s rest).code, jsOrDash (latestBy s rest).technicalStatus⟩

/-- `StatusResolver.hasStatus`: `statuses.some(s => s.attributes.code === statusCode)`. -/
def hasStatus (statuses : List StatusRecord) (statusCode : String) : Bool :=
  statuses.any (fun s => s.code == statusCode)

/-- `StatusResolver.hasAnyStatus`: `statuses.some(s => statusCodes.includes(s.attributes.code))`. -/
def hasAnyStatus (statuses : List StatusRecord) (statusCodes : List String) : Bool :=
  statuses.any (fun s => statusCodes.contains s.code)

/-- `StatusResolver.getExistingStatusCodes`. -/
def getExistingStatusCodes (statuses : List StatusRecord) : List String :=
  statuses.map (fun s => s.code)

/-- `CONFIG.businessStatus.finalStatuses`. -/
def finalStatuses : List String := ["accepted", "rejected"]

/-- The result shape of `BusinessStatusManager.analyzeDocument`. -/
structure DocumentAnalysis where
  statuses : List StatusRecord
  hasFinalStatus : Bool
  existingCodes : List String
  needsFinalStatus : Bool
  isComplete : Bool
deriving DecidableEq

/-- `BusinessStatusManager.analyzeDocument` as a function of the status
list fetched for the document. -/
def analyzeDocument (statuses : List StatusRecord) : DocumentAnalysis :=
  { statuses := statuses
    hasFinalStatus := hasAnyStatus statuses finalStatuses
    existingCodes := getExistingStatusCodes statuses
    needsFinalStatus := !(hasAnyStatus statuses finalStatuses)
    isComplete := hasAnyStatus statuses finalStatuses }

/-- One JSON:API error object of a failure response body (its optional
`detail` field). -/
structure JsonApiError where
  detail : Option String
deriving DecidableEq

/-- The `data` of an axios error response: its optional `errors` array. -/
structure ErrorBody where
  errors : Option (List JsonApiError)
deriving DecidableEq

/-- The `response` of an axios error: its optional parsed body. -/
structure ErrorResponse where
  body : Option ErrorBody
deriving DecidableEq

/-- An axios/JS error as consulted by `sendStatus`:
`error.response?.data?.errors?.[0]?.detail` and `error.message`. -/
structure JsError where
  response : Option ErrorResponse
  message : String
deriving DecidableEq

/-- The optional-chaining read `error.response?.data?.errors?.[0]?.detail`. -/
def firstErrorDetail (e : JsError) : Option String :=
  (((e.response.bind (fun r => r.body)).bind (fun b => b.errors)).bind
    (fun es => es.head?)).bind (fun err => err.detail)

/-- `error.response?.data?.errors?.[0]?.detail || error.message`. -/
def errorMessage (e : JsError) : String := jsOrStr (firstErrorDetail e) e.message

/-- The created status returned by `POST .../business-statuses`: its `id`
and `attributes.technicalStatus`. -/
structure SendResponse where
  id : String
  technicalStatus : String
deriving DecidableEq

/-- The structured result of `BusinessStatusManager.sendStatus`. -/
structure SendStatusResult where
  success : Bool
  statusCode : String
  statusId : Option String
  technicalStatus : Option String
  error : Option String
deriving DecidableEq

/-- `BusinessStatusManager.sendStatus` as a function of the outcome of the
POST call.  It is a total function into `SendStatusResult`: the `catch`
turns every failure into a structured result instead of rethrowing. -/
def sendStatus (outcome : Except JsError SendResponse) (statusCode : String) : SendStatusResult :=
  match outcome with
  | Except.ok response =>
    { success := true
      statusCode := statusCode
      statusId := some response.id
      technicalStatus := some response.technicalStatus
      error := none }
  | Except.error e =>
    { success := false
      statusCode := statusCode
      statusId := none
      technicalStatus := none
      error := some (errorMessage e) }

/-- The scan performed by `xml.match(/<cbc:Tag>([^<]+)<\/cbc:Tag>/)`: at
each position, the match succeeds when the opening tag is followed by a
nonempty run of characters other than `<` and then the closing tag
(backtracking inside `[^<]+` can never help, because the closing tag
starts with `<`); otherwise the scan moves one character forward. -/
def scanExtract (openTag closeTag : List Char) : List Char → Option (List Char)
  | [] => none
  | c :: rest =>
    if openTag.isPrefixOf (c :: rest) then
      let afterOpen := (c :: rest).drop openTag.length
      let content := afterOpen.takeWhile (fun ch => ch != '<')
      let afterContent := afterOpen.dropWhile (fun ch => ch != '<')
      if !content.isEmpty && closeTag.isPrefixOf afterContent then some content
      else scanExtract openTag closeTag rest
    else scanExtract openTag closeTag rest

/-- `XmlParser.extractField`: the first capture of
`<cbc:${tagName}>([^<]+)</cbc:${tagName}>` in the XML body, if any. -/
def extractField (xml : String) (tagName : String) : Option String :=
  (scanExtract ("<cbc:" ++ tagName ++ ">").data ("</cbc:" ++ tagName ++ ">").data
    xml.data).map (fun cs => String.mk cs)

/-- The result shape of `XmlParser.parseInvoiceDetails`.  The `issueDate`
is `none` when the element is absent, and otherwise carries the `Date`
produced by `new Date(issueDate)`, which may be the (truthy) Invalid
Date. -/
structure XmlDetails where
  invoiceNumber : String
  description : String
  issueDate : Option JsDate
deriving DecidableEq

/-- `XmlParser.parseInvoiceDetails`, parametrised over `new Date` on
strings (`parseDate`, a JS built-in treated as an external collaborator). -/
def parseInvoiceDetails (parseDate : String → JsDate) (xml : String) : XmlDetails :=
  { invoiceNumber := jsOrStr (extractField xml "ID") "Niet gevonden"
    description := jsOrStr (extractField xml "Note") "-"
    issueDate :=
      match extractField xml "IssueDate" with
      | some s => if s = "" then none else some (parseDate s)
      | none => none }

/-- `InvoiceReportGenerator.fetchXmlDetailsSafe` as a function of the
XML-fetch outcome per document id (`none` models a failed fetch, which
the `catch` replaces by the `"Error"` sentinel record). -/
def fetchXmlDetailsSafe (fetchXml : String → Option String) (parseDate : String → JsDate)
    (docId : String) : XmlDetails :=
  match fetchXml docId with
  | some xml => parseInvoiceDetails parseDate xml
  | none => { invoiceNumber := "Error", description := "Error", issueDate := none }

/-- Insertion into a JS `Map` viewed as a lookup function: a later entry
for the same key overwrites an earlier one, exactly as in the
`new Map(entries)` constructor. -/
def mapInsert (m : String → Option OutboundDoc) (k : String) (v : OutboundDoc) :
    String → Option OutboundDoc :=
  fun q => if q = k then some v else m q

/-- `InvoiceReportGenerator.buildOutboundMap` as a function of the fetched
outbound list: keep the documents with a truthy `transmissionId`, then
build the `Map` from `[transmissionId, doc]` entries in list order. -/
def buildOutboundMap (outboundDocs : List OutboundDoc) : String → Option OutboundDoc :=
  (outboundDocs.filter (fun d => d.transmissionId != "")).foldl
    (fun m d => mapInsert m d.transmissionId d) (fun _ => none)

/-- A derived inbound/outbound pairing, as produced by `findMatches`. -/
structure Match where
  inbound : InboundDoc
  outbound : OutboundDoc
  transmissionId : String
deriving DecidableEq

/-- `InvoiceReportGenerator.findMatches`: keep the inbound documents whose
transmission id is a key of the outbound map and pair each with the
mapped outbound document (the source's filter followed by a guaranteed
`Map.get` is modelled by `filterMap`). -/
def findMatches (inboundDocs : List InboundDoc) (outboundMap : String → Option OutboundDoc) :
    List Match :=
  inboundDocs.filterMap (fun inDoc =>
    (outboundMap inDoc.transmissionId).map (fun outDoc =>
      { inbound := inDoc, outbound := outDoc, transmissionId := inDoc.transmissionId }))

/-- `xmlDetails.issueDate || new Date(match.inbound.attributes.createdAt)`:
the XML issue date when the element was present (possibly Invalid Date,
which is truthy), otherwise the inbound document's creation date. -/
def resolvedInvoiceDate (fetchXml : String → Option String) (parseDate : String → JsDate)
    (m : Match) : JsDate :=
  match (fetchXmlDetailsSafe fetchXml parseDate m.inbound.id).issueDate with
  | some d => d
  | none => JsDate.valid m.inbound.createdAt

/-- The comparison `invoiceDateOnly >= cutoffDateOnly` of `splitByDate`,
after the date-only truncation of both sides; every comparison on an
Invalid Date is false. -/
def classifyMatch (fetchXml : String → Option String) (parseDate : String → JsDate)
    (cutoff : JsDateTime) (m : Match) : Bool :=
  match resolvedInvoiceDate fetchXml parseDate m with
  | JsDate.invalid => false
  | JsDate.valid t => dateOnlyGe t.dateOnly cutoff.dateOnly

/-- `InvoiceReportGenerator.splitByDate`: each match goes to the first
component when its resolved invoice date is on or after the cutoff
(day-level comparison) and to the second component otherwise, in
iteration order. -/
def splitByDate (fetchXml : String → Option String) (parseDate : String → JsDate)
    (ms : List Match) (cutoff : JsDateTime) : List Match × List Match :=
  match ms with
  | [] => ([], [])
  | m :: rest =>
    let p := splitByDate fetchXml parseDate rest cutoff
    if classifyMatch fetchXml parseDate cutoff m then (m :: p.1, p.2) else (p.1, m :: p.2)

/-- `new Date('2025-11-28T00:00:00Z')`: the fixed cutoff constant of
`generateReport` (JS `getMonth()` is 0-based, so November is 10). -/
def cutoffDateTime : JsDateTime := ⟨2025, 10, 28, 0⟩

/-- The numeric value of a digit run. -/
def digitsVal (ds : List Char) : Nat :=
  ds.foldl (fun acc c => 10 * acc + (c.toNat - '0'.toNat)) 0

/-- JS `parseInt(s, 10)`: skip leading whitespace, read an optional sign,
then the longest leading digit run; `none` models `NaN` (no digits).
JS numbers are floats, but on the integer values compared here `Int`
arithmetic agrees. -/
def parseIntBase10 (s : String) : Option Int :=
  let cs := s.data.dropWhile (fun c => c.isWhitespace)
  let signed : Bool × List Char :=
    match cs with
    | '-' :: rest => (true, rest)
    | '+' :: rest => (false, rest)
    | rest => (false, rest)
  let digits := signed.2.takeWhile (fun c => c.isDigit)
  if digits.isEmpty then none
  else if signed.1 then some (-(digitsVal digits : Int)) else some (digitsVal digits : Int)

/-- The comparator of `sortMatchesByInvoiceNumber`: numeric difference
when both invoice numbers parse with `parseInt(_, 10)`, otherwise
`localeCompare` (a locale-dependent JS built-in, taken as a parameter). -/
def compareInvoiceNumbers (localeCompare : String → String → Int) (a b : String) : Int :=
  match parseIntBase10 a, parseIntBase10 b with
  | some numA, some numB => numA - numB
  | _, _ => localeCompare a b

/-- `InvoiceReportGenerator.sortMatchesByInvoiceNumber`: pair each match
with its extracted invoice number, sort the pairs stably by the
comparator, and strip the numbers again. -/
def sortMatchesByInvoiceNumber (fetchXml : String → Option String) (parseDate : String → JsDate)
    (localeCompare : String → String → Int) (ms : List Match) : List Match :=
  ((ms.map (fun m =>
      (m, (fetchXmlDetailsSafe fetchXml parseDate m.inbound.id).invoiceNumber))).mergeSort
    (fun x y => decide (compareInvoiceNumbers localeCompare x.2 y.2 ≤ 0))).map
    (fun item => item.1)

/-- One row of `analyzeAllDocuments`: the analysed document id, its
transmission id and the analysis of its fetched status list. -/
structure AnalysisEntry where
  documentId : String
  transmissionId : String
  analysis : DocumentAnalysis
deriving DecidableEq

/-- `InvoiceReportGenerator.analyzeAllDocuments` as a function of the
per-document status lists. -/
def analyzeAllDocuments (statusesOf : String → List StatusRecord) (ms : List Match) :
    List AnalysisEntry :=
  ms.map (fun m =>
    { documentId := m.inbound.id
      transmissionId := m.transmissionId
      analysis := analyzeDocument (statusesOf m.inbound.id) })

/-- The document ids for which `generateReport` attempts a final-status
submission (`sendFinalStatuses`, hence `sendStatus` and the POST
`sendBusinessStatus`), as a function of the run's environment: the
fetched inbound and outbound lists, the status list fetched per document
id, and the XML fetch outcome per document id.  It mirrors the source's
control flow: abort on no matches; analyse all matches; split by the
fixed cutoff; for the on/after-cutoff group and then the before-cutoff
group, submit exactly for the analysed documents of that group that
still need a final status. -/
def attemptedFinalStatusDocs (inboundDocs : List InboundDoc) (outboundDocs : List OutboundDoc)
    (statusesOf : String → List StatusRecord) (fetchXml : String → Option String)
    (parseDate : String → JsDate) : List String :=
  let ms := findMatches inboundDocs (buildOutboundMap outboundDocs)
  if ms.isEmpty then []
  else
    let analysis := analyzeAllDocuments statusesOf ms
    let parts := splitByDate fetchXml parseDate ms cutoffDateTime
    let sendsLater :=
      if parts.1.length > 0 then
        ((analysis.filter (fun a => parts.1.any (fun m => m.inbound.id == a.documentId))).filter
          (fun a => a.analysis.needsFinalStatus)).map (fun a => a.documentId)
      else []
    let sendsBefore :=
      if parts.2.length > 0 then
        ((analysis.filter (fun a => parts.2.any (fun m => m.inbound.id == a.documentId))).filter
          (fun a => a.analysis.needsFinalStatus)).map (fun a => a.documentId)
      else []
    sendsLater ++ sendsBefore

theorem latestBy_cons (s r : StatusRecord) (t : List StatusRecord) :
    latestBy s (r :: t) = latestBy (if s.createdAt < r.createdAt then r else s) t := rfl

theorem latestBy_mem (rest : List StatusRecord) : ∀ s : StatusRecord,
    latestBy s rest ∈ s :: rest := by
  induction rest with
  | nil => intro s; simp [latestBy]
  | cons r t ih =>
    intro s
    rw [latestBy_cons]
    rcases List.mem_cons.mp (ih (if s.createdAt < r.createdAt then r else s)) with h | h
    · rw [h]
      by_cases hc : s.createdAt < r.createdAt
      · rw [if_pos hc]; exact List.mem_cons_of_mem s (List.mem_cons_self r t)
      · rw [if_neg hc]; exact List.mem_cons_self s (r :: t)
    · exact List.mem_cons_of_mem s (List.mem_cons_of_mem r h)

theorem le_latestBy (rest : List StatusRecord) : ∀ s : StatusRecord,
    s.createdAt ≤ (latestBy s rest).createdAt := by
  induction rest with
  | nil => intro s; simp [latestBy]
  | cons x t ih =>
    intro s
    rw [latestBy_cons]
    by_cases hc : s.createdAt < x.createdAt
    · rw [if_pos hc]; exact Nat.le_trans (Nat.le_of_lt hc) (ih x)
    · rw [if_neg hc]; exact ih s

theorem latestBy_max (rest : List StatusRecord) : ∀ s r : StatusRecord,
    r ∈ s :: rest → r.createdAt ≤ (latestBy s rest).createdAt := by
  induction rest with
  | nil =>
    intro s r hr
    have h : r = s := by simpa using hr
    rw [h]; simp [latestBy]
  | cons x t ih =>
    intro s r hr
    rw [latestBy_cons]
    by_cases hc : s.createdAt < x.createdAt
    · rw [if_pos hc]
      rcases List.mem_cons.mp hr with h | h
      · rw [h]; exact Nat.le_trans (Nat.le_of_lt hc) (le_latestBy t x)
      · exact ih x r h
    · rw [if_neg hc]
      rcases List.mem_cons.mp hr with h | h
      · rw [h]; exact le_latestBy t s
      · rcases List.mem_cons.mp h with h2 | h2
        · rw [h2]; exact Nat.le_trans (Nat.not_lt.mp hc) (le_latestBy t s)
        · exact ih s r (List.mem_cons_of_mem s h2)

/-- C2: for every non-empty status list, `getLatestStatus` returns the
(falsy-defaulted) `code` and `technicalStatus` of a record whose
`createdAt` is maximal in the list; for the empty list it returns the
sentinel pair `("-", "-")`. -/
theorem getLatestStatus_spec (statuses : List StatusRecord) :
    (statuses = [] → getLatestStatus statuses = ⟨"-", "-"⟩) ∧
    (statuses ≠ [] → ∃ r, r ∈ statuses ∧
      (∀ s, s ∈ statuses → s.createdAt ≤ r.createdAt) ∧
      getLatestStatus statuses = ⟨jsOrDash r.code, jsOrDash r.technicalStatus⟩) := by
  constructor
  · intro h; rw [h]; rfl
  · intro h
    cases statuses with
    | nil => exact absurd rfl h
    | cons s rest =>
      exact ⟨latestBy s rest, latestBy_mem rest s,
        fun x hx => latestBy_max rest s x hx, rfl⟩

/-- C2 witness: the theorem applied to a concrete two-record list (and to
the empty list). -/
theorem getLatestStatus_spec_witness :
    getLatestStatus [⟨"delivered", "OK", 5⟩, ⟨"accepted", "OK", 9⟩] = ⟨"accepted", "OK"⟩ ∧
    getLatestStatus [] = ⟨"-", "-"⟩ := by
  constructor
  · obtain ⟨r, hr, hmax, heq⟩ :=
      (getLatestStatus_spec [⟨"delivered", "OK", 5⟩, ⟨"accepted", "OK", 9⟩]).2 (by decide)
    have h9 := hmax ⟨"accepted", "OK", 9⟩ (by decide)
    rcases List.mem_cons.mp hr with h | h
    · rw [h] at h9
      exact absurd h9 (by decide)
    · have h2 : r = ⟨"accepted", "OK", 9⟩ := by simpa using h
      rw [h2] at heq
      rw [heq]
      rfl
  · exact (getLatestStatus_spec []).1 rfl

/-- C4: `analyzeDocument` sets `needsFinalStatus` exactly when no record
of the fetched status list carries the code `accepted` or `rejected`,
and `isComplete` is the negation of `needsFinalStatus`. -/
theorem analyzeDocument_spec (statuses : List StatusRecord) :
    ((analyzeDocument statuses).needsFinalStatus = true ↔
      ¬ ∃ r, r ∈ statuses ∧ (r.code = "accepted" ∨ r.code = "rejected")) ∧
    (analyzeDocument statuses).isComplete = !(analyzeDocument statuses).needsFinalStatus := by
  constructor
  · simp [analyzeDocument, hasAnyStatus, finalStatuses, List.contains_iff_exists_mem_beq]
  · simp [analyzeDocument]

/-- C4 witness: the theorem applied to concrete status lists. -/
theorem analyzeDocument_spec_witness :
    (analyzeDocument [⟨"delivered", "OK", 5⟩]).needsFinalStatus = true ∧
    (analyzeDocument [⟨"delivered", "OK", 5⟩, ⟨"rejected", "OK", 9⟩]).needsFinalStatus = false := by
  constructor
  · exact (analyzeDocument_spec [⟨"delivered", "OK", 5⟩]).1.mpr (by decide)
  · have h := (analyzeDocument_spec [⟨"delivered", "OK", 5⟩, ⟨"rejected", "OK", 9⟩]).1
    cases hb : (analyzeDocument [⟨"delivered", "OK", 5⟩, ⟨"rejected", "OK", 9⟩]).needsFinalStatus
    · rfl
    · exact absurd (h.mp hb) (by decide)

/-- C6: `sendStatus` never throws (it is a total function into
`SendStatusResult`): on success it reports the created status id and
technical status; on failure it reports `success = false`, the attempted
status code, and as error the first JSON:API error detail of the
response body when present (and truthy), otherwise the generic error
message. -/
theorem sendStatus_spec (statusCode : String) :
    (∀ response : SendResponse,
      sendStatus (Except.ok response) statusCode =
        { success := true, statusCode := statusCode, statusId := some response.id,
          technicalStatus := some response.technicalStatus, error := none }) ∧
    (∀ (e : JsError) (d : String), firstErrorDetail e = some d → d ≠ "" →
      sendStatus (Except.error e) statusCode =
        { success := false, statusCode := statusCode, statusId := none,
          technicalStatus := none, error := some d }) ∧
    (∀ e : JsError, firstErrorDetail e = none ∨ firstErrorDetail e = some "" →
      sendStatus (Except.error e) statusCode =
        { success := false, statusCode := statusCode, statusId := none,
          technicalStatus := none, error := some e.message }) := by
  refine ⟨fun response => rfl, ?_, ?_⟩
  · intro e d hd hne
    simp [sendStatus, errorMessage, jsOrStr, hd, hne]
  · intro e h
    rcases h with h | h <;> simp [sendStatus, errorMessage, jsOrStr, h]

/-- C6 witness: the theorem applied to a 403 response carrying an
"already final"-style error detail, and to a success response. -/
theorem sendStatus_spec_witness :
    sendStatus (Except.error
      ⟨some ⟨some ⟨some [⟨some "Document status cannot transition to accepted"⟩]⟩⟩,
        "Request failed with status code 403"⟩) "accepted" =
      ⟨false, "accepted", none, none,
        some "Document status cannot transition to accepted"⟩ ∧
    sendStatus (Except.ok ⟨"bs-1", "OK"⟩) "rejected" =
      ⟨true, "rejected", some "bs-1", some "OK", none⟩ := by
  constructor
  · exact (sendStatus_spec "accepted").2.1
      ⟨some ⟨some ⟨some [⟨some "Document status cannot transition to accepted"⟩]⟩⟩,
        "Request failed with status code 403"⟩
      "Document status cannot transition to accepted" rfl (by decide)
  · exact (sendStatus_spec "rejected").1 ⟨"bs-1", "OK"⟩

theorem any_eq_of_perm {l l2 : List StatusRecord} (hp : l.Perm l2) (p : StatusRecord → Bool) :
    l.any p = l2.any p := by
  cases h1 : l.any p with
  | true =>
    obtain ⟨x, hx, hpx⟩ := List.any_eq_true.mp h1
    exact (List.any_eq_true.mpr ⟨x, hp.mem_iff.mp hx, hpx⟩).symm
  | false =>
    cases h2 : l2.any p with
    | false => rfl
    | true =>
      obtain ⟨x, hx, hpx⟩ := List.any_eq_true.mp h2
      exact absurd hpx (List.any_eq_false.mp h1 x (hp.mem_iff.mpr hx))

theorem getLatestStatus_perm {l l2 : List StatusRecord} (hp : l.Perm l2)
    (hd : l.Pairwise (fun a b => a.createdAt ≠ b.createdAt)) :
    getLatestStatus l = getLatestStatus l2 := by
  cases l with
  | nil => rw [hp.nil_eq]
  | cons s rest =>
    cases l2 with
    | nil => exact absurd hp.eq_nil (by simp)
    | cons s2 rest2 =>
      have h1m : latestBy s rest ∈ s :: rest := latestBy_mem rest s
      have h2m : latestBy s2 rest2 ∈ s :: rest := hp.mem_iff.mpr (latestBy_mem rest2 s2)
      have h12 : (latestBy s rest).createdAt ≤ (latestBy s2 rest2).createdAt :=
        latestBy_max rest2 s2 _ (hp.mem_iff.mp h1m)
      have h21 : (latestBy s2 rest2).createdAt ≤ (latestBy s rest).createdAt :=
        latestBy_max rest s _ h2m
      have heq : latestBy s rest = latestBy s2 rest2 := by
        by_contra hne
        exact List.Pairwise.forall (fun a b h => Ne.symm h) hd h1m h2m hne
          (Nat.le_antisymm h12 h21)
      simp only [getLatestStatus, heq]

/-- C9: `getLatestStatus`, `hasStatus` and `hasAnyStatus` are pure
functions of the status list and are order-independent: permuting the
list does not change their result (for `getLatestStatus` under the
assumption that the `createdAt` timestamps are pairwise distinct). -/
theorem statusResolver_order_independent (l l2 : List StatusRecord) (code : String)
    (codes : List String) (hp : l.Perm l2) :
    hasStatus l code = hasStatus l2 code ∧
    hasAnyStatus l codes = hasAnyStatus l2 codes ∧
    (l.Pairwise (fun a b => a.createdAt ≠ b.createdAt) →
      getLatestStatus l = getLatestStatus l2) :=
  ⟨any_eq_of_perm hp _, any_eq_of_perm hp _, fun hd => getLatestStatus_perm hp hd⟩

/-- C9 witness: the theorem applied to a concrete list and a transposition
of it. -/
theorem statusResolver_order_independent_witness :
    hasStatus [⟨"delivered", "OK", 5⟩, ⟨"accepted", "OK", 9⟩] "accepted" =
      hasStatus [⟨"accepted", "OK", 9⟩, ⟨"delivered", "OK", 5⟩] "accepted" ∧
    hasAnyStatus [⟨"delivered", "OK", 5⟩, ⟨"accepted", "OK", 9⟩] ["accepted", "rejected"] =
      hasAnyStatus [⟨"accepted", "OK", 9⟩, ⟨"delivered", "OK", 5⟩] ["accepted", "rejected"] ∧
    getLatestStatus [⟨"delivered", "OK", 5⟩, ⟨"accepted", "OK", 9⟩] =
      getLatestStatus [⟨"accepted", "OK", 9⟩, ⟨"delivered", "OK", 5⟩] := by
  have h := statusResolver_order_independent
    [⟨"delivered", "OK", 5⟩, ⟨"accepted", "OK", 9⟩]
    [⟨"accepted", "OK", 9⟩, ⟨"delivered", "OK", 5⟩]
    "accepted" ["accepted", "rejected"] (by decide)
  exact ⟨h.1, h.2.1, h.2.2 (by decide)⟩

theorem foldl_mapInsert_eq (l : List OutboundDoc) (m0 : String → Option OutboundDoc)
    (q : String) :
    (l.foldl (fun m d => mapInsert m d.transmissionId d) m0) q =
      match l.reverse.find? (fun d => d.transmissionId == q) with
      | some d => some d
      | none => m0 q := by
  induction l generalizing m0 with
  | nil => rfl
  | cons a t ih =>
    show (t.foldl _ (mapInsert m0 a.transmissionId a)) q = _
    rw [ih, List.reverse_cons, List.find?_append]
    cases h : t.reverse.find? (fun d => d.transmissionId == q) with
    | some d => rfl
    | none =>
      by_cases hq : a.transmissionId = q
      · have hb : (a.transmissionId == q) = true := by simpa using hq
        simp [mapInsert, List.find?, hb, hq]
      · have hq2 : ¬ q = a.transmissionId := fun h2 => hq h2.symm
        have hb : (a.transmissionId == q) = false := by simpa using hq
        simp [mapInsert, List.find?, hb, hq2]

theorem buildOutboundMap_eq_find (outboundDocs : List OutboundDoc) (q : String) :
    buildOutboundMap outboundDocs q =
      ((outboundDocs.filter (fun d => d.transmissionId != "")).reverse).find?
        (fun d => d.transmissionId == q) := by
  unfold buildOutboundMap
  rw [foldl_mapInsert_eq]
  cases h : ((outboundDocs.filter (fun d => d.transmissionId != "")).reverse).find?
      (fun d => d.transmissionId == q) <;> rfl

theorem buildOutboundMap_some {outboundDocs : List OutboundDoc} {q : String}
    {d : OutboundDoc} (h : buildOutboundMap outboundDocs q = some d) :
    d ∈ outboundDocs ∧ d.transmissionId = q ∧ q ≠ "" := by
  rw [buildOutboundMap_eq_find] at h
  have hp := List.find?_some h
  have hmem := List.mem_of_find?_eq_some h
  rw [List.mem_reverse, List.mem_filter] at hmem
  have htid : d.transmissionId = q := by simpa using hp
  have hne : d.transmissionId ≠ "" := by simpa using hmem.2
  exact ⟨hmem.1, htid, htid ▸ hne⟩

theorem buildOutboundMap_isSome (outboundDocs : List OutboundDoc) (q : String) :
    (buildOutboundMap outboundDocs q).isSome = true ↔
      ∃ o, o ∈ outboundDocs ∧ o.transmissionId ≠ "" ∧ o.transmissionId = q := by
  rw [buildOutboundMap_eq_find, List.find?_isSome]
  constructor
  · rintro ⟨x, hx, hpx⟩
    rw [List.mem_reverse, List.mem_filter] at hx
    exact ⟨x, hx.1, by simpa using hx.2, by simpa using hpx⟩
  · rintro ⟨o, ho, hne, htid⟩
    exact ⟨o, by rw [List.mem_reverse, List.mem_filter]
                 exact ⟨ho, by simpa using hne⟩, by simpa using htid⟩

/-- C7: the outbound index maps a duplicated transmission id to the
outbound document that occurs last in the fetched list (last write wins),
and documents with a missing or empty transmission id are excluded from
the index entirely.  The first conjunct characterises the whole index:
a lookup is the last fetched document with a truthy matching
transmission id. -/
theorem buildOutboundMap_spec (outboundDocs : List OutboundDoc) (q : String) :
    (buildOutboundMap outboundDocs q =
      ((outboundDocs.filter (fun d => d.transmissionId != "")).reverse).find?
        (fun d => d.transmissionId == q)) ∧
    (∀ d, buildOutboundMap outboundDocs q = some d →
      d ∈ outboundDocs ∧ d.transmissionId = q ∧ q ≠ "") ∧
    buildOutboundMap outboundDocs "" = none ∧
    (∀ l1 d l2, outboundDocs = l1 ++ d :: l2 → d.transmissionId = q → q ≠ "" →
      (∀ d2, d2 ∈ l2 → d2.transmissionId ≠ q) →
      buildOutboundMap outboundDocs q = some d) := by
  refine ⟨buildOutboundMap_eq_find outboundDocs q, fun d h => buildOutboundMap_some h,
    ?_, ?_⟩
  · rw [buildOutboundMap_eq_find]
    refine List.find?_eq_none.mpr (fun x hx => ?_)
    rw [List.mem_reverse, List.mem_filter] at hx
    have : x.transmissionId ≠ "" := by simpa using hx.2
    simpa using this
  · intro l1 d l2 hsplit hdq hq hlast
    rw [buildOutboundMap_eq_find, hsplit, List.filter_append]
    have hdne : d.transmissionId ≠ "" := by rw [hdq]; exact hq
    rw [show List.filter (fun x : OutboundDoc => x.transmissionId != "") (d :: l2) =
          d :: List.filter (fun x : OutboundDoc => x.transmissionId != "") l2 from
        List.filter_cons_of_pos (by simpa using hdne),
      List.reverse_append, List.reverse_cons, List.find?_append, List.find?_append]
    have h2 : (l2.filter (fun x => x.transmissionId != "")).reverse.find?
        (fun x => x.transmissionId == q) = none := by
      refine List.find?_eq_none.mpr (fun x hx => ?_)
      rw [List.mem_reverse, List.mem_filter] at hx
      have := hlast x hx.1
      simpa using this
    have h3 : List.find? (fun x => x.transmissionId == q) [d] = some d := by
      simp [List.find?, hdq]
    rw [h2, h3]
    rfl

/-- C7 witness: two outbound documents share the transmission id `T1`;
the index maps `T1` to the later one, and an empty id is never a key. -/
theorem buildOutboundMap_spec_witness :
    buildOutboundMap [⟨"out1", "T1"⟩, ⟨"out2", "T1"⟩] "T1" = some ⟨"out2", "T1"⟩ ∧
    buildOutboundMap [⟨"out1", "T1"⟩, ⟨"out2", "T1"⟩] "" = none := by
  constructor
  · exact (buildOutboundMap_spec [⟨"out1", "T1"⟩, ⟨"out2", "T1"⟩] "T1").2.2.2
      [⟨"out1", "T1"⟩] ⟨"out2", "T1"⟩ [] rfl rfl (by decide) (by intro d2 h; cases h)
  · exact (buildOutboundMap_spec [⟨"out1", "T1"⟩, ⟨"out2", "T1"⟩] "T1").2.2.1

/-- C3: the computed match set contains a match for an inbound document
exactly when some outbound document in the fetched window carries the
same present, non-empty transmission id. -/
theorem findMatches_spec (inboundDocs : List InboundDoc) (outboundDocs : List OutboundDoc)
    (d : InboundDoc) (hd : d ∈ inboundDocs) :
    (∃ m, m ∈ findMatches inboundDocs (buildOutboundMap outboundDocs) ∧ m.inbound = d) ↔
    (∃ o, o ∈ outboundDocs ∧ o.transmissionId ≠ "" ∧
      o.transmissionId = d.transmissionId) := by
  constructor
  · rintro ⟨m, hm, hmi⟩
    obtain ⟨a, ha, heq⟩ := List.mem_filterMap.mp hm
    obtain ⟨o, ho, hmo⟩ := Option.map_eq_some'.mp heq
    have hai : a = d := by rw [← hmi, ← hmo]
    rw [hai] at ho
    obtain ⟨homem, htid, hne⟩ := buildOutboundMap_some ho
    exact ⟨o, homem, htid ▸ hne, htid⟩
  · rintro ⟨o, ho, hne, htid⟩
    have hsome : (buildOutboundMap outboundDocs d.transmissionId).isSome = true :=
      (buildOutboundMap_isSome outboundDocs d.transmissionId).mpr ⟨o, ho, hne, htid⟩
    obtain ⟨o2, ho2⟩ := Option.isSome_iff_exists.mp hsome
    refine ⟨⟨d, o2, d.transmissionId⟩, List.mem_filterMap.mpr ⟨d, hd, ?_⟩, rfl⟩
    rw [ho2]
    rfl

/-- C3 witness: the theorem applied to a single matching pair, and to a
pair whose outbound transmission id differs. -/
theorem findMatches_spec_witness :
    ((∃ m, m ∈ findMatches [⟨"in1", "T1", ⟨2025, 10, 1, 0⟩⟩]
        (buildOutboundMap [⟨"out1", "T1"⟩]) ∧ m.inbound = ⟨"in1", "T1", ⟨2025, 10, 1, 0⟩⟩) ↔
      (∃ o, o ∈ [(⟨"out1", "T1"⟩ : OutboundDoc)] ∧ o.transmissionId ≠ "" ∧
        o.transmissionId = "T1")) ∧
    ((∃ m, m ∈ findMatches [⟨"in1", "T1", ⟨2025, 10, 1, 0⟩⟩]
        (buildOutboundMap [⟨"out1", "T2"⟩]) ∧ m.inbound = ⟨"in1", "T1", ⟨2025, 10, 1, 0⟩⟩) ↔
      (∃ o, o ∈ [(⟨"out1", "T2"⟩ : OutboundDoc)] ∧ o.transmissionId ≠ "" ∧
        o.transmissionId = "T1")) := by
  constructor
  · exact findMatches_spec [⟨"in1", "T1", ⟨2025, 10, 1, 0⟩⟩] [⟨"out1", "T1"⟩]
      ⟨"in1", "T1", ⟨2025, 10, 1, 0⟩⟩ (by decide)
  · exact findMatches_spec [⟨"in1", "T1", ⟨2025, 10, 1, 0⟩⟩] [⟨"out1", "T2"⟩]
      ⟨"in1", "T1", ⟨2025, 10, 1, 0⟩⟩ (by decide)

theorem splitByDate_fst (fetchXml : String → Option String) (parseDate : String → JsDate)
    (ms : List Match) (cutoff : JsDateTime) :
    (splitByDate fetchXml parseDate ms cutoff).1 =
      ms.filter (classifyMatch fetchXml parseDate cutoff) := by
  induction ms with
  | nil => rfl
  | cons m rest ih =>
    by_cases hc : classifyMatch fetchXml parseDate cutoff m
    · simp [splitByDate, List.filter_cons, hc, ih]
    · have hc2 : classifyMatch fetchXml parseDate cutoff m = false := by simpa using hc
      simp [splitByDate, List.filter_cons, hc2, ih]

theorem splitByDate_snd (fetchXml : String → Option String) (parseDate : String → JsDate)
    (ms : List Match) (cutoff : JsDateTime) :
    (splitByDate fetchXml parseDate ms cutoff).2 =
      ms.filter (fun m => !classifyMatch fetchXml parseDate cutoff m) := by
  induction ms with
  | nil => rfl
  | cons m rest ih =>
    by_cases hc : classifyMatch fetchXml parseDate cutoff m
    · simp [splitByDate, List.filter_cons, hc, ih]
    · have hc2 : classifyMatch fetchXml parseDate cutoff m = false := by simpa using hc
      simp [splitByDate, List.filter_cons, hc2, ih]

theorem length_filter_add_length_filter_not (l : List Match) (p : Match → Bool) :
    (l.filter p).length + (l.filter (fun a => !p a)).length = l.length := by
  induction l with
  | nil => rfl
  | cons a t ih =>
    cases h : p a <;> simp [List.filter_cons, h] <;> omega

/-- C5: a match whose resolved invoice date falls exactly on the cutoff
day (the fixed constant 2025-11-28, compared at day level) is placed in
the on/after-cutoff partition and not in the before-cutoff partition:
the boundary comparison is inclusive. -/
theorem splitByDate_cutoff_inclusive (fetchXml : String → Option String)
    (parseDate : String → JsDate) (ms : List Match) (m : Match) (t : JsDateTime)
    (hm : m ∈ ms)
    (ht : resolvedInvoiceDate fetchXml parseDate m = JsDate.valid t)
    (hday : t.dateOnly = cutoffDateTime.dateOnly) :
    m ∈ (splitByDate fetchXml parseDate ms cutoffDateTime).1 ∧
    m ∉ (splitByDate fetchXml parseDate ms cutoffDateTime).2 := by
  have hc : classifyMatch fetchXml parseDate cutoffDateTime m = true := by
    unfold classifyMatch
    rw [ht]
    show dateOnlyGe t.dateOnly cutoffDateTime.dateOnly = true
    rw [hday]
    simp [dateOnlyGe]
  constructor
  · rw [splitByDate_fst]
    exact List.mem_filter.mpr ⟨hm, hc⟩
  · rw [splitByDate_snd]
    intro hmem
    have h2 := (List.mem_filter.mp hmem).2
    rw [hc] at h2
    simp at h2

/-- C5 witness: a match whose XML fetch fails and whose inbound document
was created exactly on 2025-11-28 lands in the on/after-cutoff partition. -/
theorem splitByDate_cutoff_inclusive_witness :
    (⟨⟨"in1", "T1", ⟨2025, 10, 28, 43200000⟩⟩, ⟨"out1", "T1"⟩, "T1"⟩ : Match) ∈
      (splitByDate (fun _ => none) (fun _ => JsDate.invalid)
        [⟨⟨"in1", "T1", ⟨2025, 10, 28, 43200000⟩⟩, ⟨"out1", "T1"⟩, "T1"⟩] cutoffDateTime).1 ∧
    (⟨⟨"in1", "T1", ⟨2025, 10, 28, 43200000⟩⟩, ⟨"out1", "T1"⟩, "T1"⟩ : Match) ∉
      (splitByDate (fun _ => none) (fun _ => JsDate.invalid)
        [⟨⟨"in1", "T1", ⟨2025, 10, 28, 43200000⟩⟩, ⟨"out1", "T1"⟩, "T1"⟩] cutoffDateTime).2 :=
  splitByDate_cutoff_inclusive (fun _ => none) (fun _ => JsDate.invalid)
    [⟨⟨"in1", "T1", ⟨2025, 10, 28, 43200000⟩⟩, ⟨"out1", "T1"⟩, "T1"⟩]
    ⟨⟨"in1", "T1", ⟨2025, 10, 28, 43200000⟩⟩, ⟨"out1", "T1"⟩, "T1"⟩
    ⟨2025, 10, 28, 43200000⟩ (by decide) rfl (by decide)

/-- C10: the cutoff classification falls back to the inbound document's
creation date when the XML fetch fails or the XML has no `cbc:IssueDate`
element, and `splitByDate` always places every match in exactly one of
the two partitions, whose contents together are exactly the input
matches. -/
theorem splitByDate_partition (fetchXml : String → Option String)
    (parseDate : String → JsDate) (ms : List Match) (cutoff : JsDateTime) :
    (∀ m, m ∈ ms ↔ (m ∈ (splitByDate fetchXml parseDate ms cutoff).1 ∨
      m ∈ (splitByDate fetchXml parseDate ms cutoff).2)) ∧
    (∀ m, ¬(m ∈ (splitByDate fetchXml parseDate ms cutoff).1 ∧
      m ∈ (splitByDate fetchXml parseDate ms cutoff).2)) ∧
    (splitByDate fetchXml parseDate ms cutoff).1.length +
      (splitByDate fetchXml parseDate ms cutoff).2.length = ms.length ∧
    (∀ m : Match, fetchXml m.inbound.id = none →
      resolvedInvoiceDate fetchXml parseDate m = JsDate.valid m.inbound.createdAt) ∧
    (∀ (m : Match) (xml : String), fetchXml m.inbound.id = some xml →
      extractField xml "IssueDate" = none →
      resolvedInvoiceDate fetchXml parseDate m = JsDate.valid m.inbound.createdAt) := by
  refine ⟨?_, ?_, ?_, ?_, ?_⟩
  · intro m
    rw [splitByDate_fst, splitByDate_snd]
    constructor
    · intro hm
      by_cases hc : classifyMatch fetchXml parseDate cutoff m
      · exact Or.inl (List.mem_filter.mpr ⟨hm, hc⟩)
      · exact Or.inr (List.mem_filter.mpr ⟨hm, by simpa using hc⟩)
    · intro hm
      rcases hm with hm | hm
      · exact (List.mem_filter.mp hm).1
      · exact (List.mem_filter.mp hm).1
  · intro m hboth
    rw [splitByDate_fst] at hboth
    rw [splitByDate_snd] at hboth
    have h1 := (List.mem_filter.mp hboth.1).2
    have h2 := (List.mem_filter.mp hboth.2).2
    rw [h1] at h2
    simp at h2
  · rw [splitByDate_fst, splitByDate_snd]
    exact length_filter_add_length_filter_not ms (classifyMatch fetchXml parseDate cutoff)
  · intro m hf
    simp [resolvedInvoiceDate, fetchXmlDetailsSafe, hf]
  · intro m xml hx he
    simp [resolvedInvoiceDate, fetchXmlDetailsSafe, hx, parseInvoiceDetails, he]

/-- C10 witness: the theorem applied to a two-match run in which one XML
fetch fails and the other returns XML without a `cbc:IssueDate` element. -/
theorem splitByDate_partition_witness :
    (splitByDate
        (fun id => if id = "in1" then some "<Invoice><cbc:ID>42</cbc:ID></Invoice>" else none)
        (fun _ => JsDate.invalid)
        [⟨⟨"in1", "T1", ⟨2025, 10, 28, 0⟩⟩, ⟨"out1", "T1"⟩, "T1"⟩,
         ⟨⟨"in2", "T2", ⟨2025, 10, 1, 0⟩⟩, ⟨"out2", "T2"⟩, "T2"⟩] cutoffDateTime).1.length +
      (splitByDate
        (fun id => if id = "in1" then some "<Invoice><cbc:ID>42</cbc:ID></Invoice>" else none)
        (fun _ => JsDate.invalid)
        [⟨⟨"in1", "T1", ⟨2025, 10, 28, 0⟩⟩, ⟨"out1", "T1"⟩, "T1"⟩,
         ⟨⟨"in2", "T2", ⟨2025, 10, 1, 0⟩⟩, ⟨"out2", "T2"⟩, "T2"⟩] cutoffDateTime).2.length = 2 ∧
    resolvedInvoiceDate
        (fun id => if id = "in1" then some "<Invoice><cbc:ID>42</cbc:ID></Invoice>" else none)
        (fun _ => JsDate.invalid)
        ⟨⟨"in1", "T1", ⟨2025, 10, 28, 0⟩⟩, ⟨"out1", "T1"⟩, "T1"⟩ =
      JsDate.valid ⟨2025, 10, 28, 0⟩ ∧
    resolvedInvoiceDate
        (fun id => if id = "in1" then some "<Invoice><cbc:ID>42</cbc:ID></Invoice>" else none)
        (fun _ => JsDate.invalid)
        ⟨⟨"in2", "T2", ⟨2025, 10, 1, 0⟩⟩, ⟨"out2", "T2"⟩, "T2"⟩ =
      JsDate.valid ⟨2025, 10, 1, 0⟩ := by
  have h := splitByDate_partition
    (fun id => if id = "in1" then some "<Invoice><cbc:ID>42</cbc:ID></Invoice>" else none)
    (fun _ => JsDate.invalid)
    [⟨⟨"in1", "T1", ⟨2025, 10, 28, 0⟩⟩, ⟨"out1", "T1"⟩, "T1"⟩,
     ⟨⟨"in2", "T2", ⟨2025, 10, 1, 0⟩⟩, ⟨"out2", "T2"⟩, "T2"⟩] cutoffDateTime
  refine ⟨h.2.2.1, ?_, ?_⟩
  · exact h.2.2.2.2 ⟨⟨"in1", "T1", ⟨2025, 10, 28, 0⟩⟩, ⟨"out1", "T1"⟩, "T1"⟩
      "<Invoice><cbc:ID>42</cbc:ID></Invoice>" rfl rfl
  · exact h.2.2.2.1 ⟨⟨"in2", "T2", ⟨2025, 10, 1, 0⟩⟩, ⟨"out2", "T2"⟩, "T2"⟩ rfl

/-- C8: the sort comparator compares numerically (via `parseInt(_, 10)`)
when both invoice numbers parse, and falls back to `localeCompare`
whenever at least one of the two does not parse; the sorted output is a
permutation of the input matches. -/
theorem sortMatchesByInvoiceNumber_spec (localeCompare : String → String → Int)
    (a b : String) :
    (∀ x y : Int, parseIntBase10 a = some x → parseIntBase10 b = some y →
      compareInvoiceNumbers localeCompare a b = x - y) ∧
    ((parseIntBase10 a = none ∨ parseIntBase10 b = none) →
      compareInvoiceNumbers localeCompare a b = localeCompare a b) ∧
    (∀ (fetchXml : String → Option String) (parseDate : String → JsDate) (ms : List Match),
      (sortMatchesByInvoiceNumber fetchXml parseDate localeCompare ms).Perm ms) := by
  refine ⟨?_, ?_, ?_⟩
  · intro x y hx hy
    simp [compareInvoiceNumbers, hx, hy]
  · intro h
    rcases h with h | h
    · simp [compareInvoiceNumbers, h]
    · cases ha : parseIntBase10 a <;> simp [compareInvoiceNumbers, ha, h]
  · intro fetchXml parseDate ms
    unfold sortMatchesByInvoiceNumber
    have hperm := (List.mergeSort_perm (ms.map (fun m =>
        (m, (fetchXmlDetailsSafe fetchXml parseDate m.inbound.id).invoiceNumber)))
      (fun x y => decide (compareInvoiceNumbers localeCompare x.2 y.2 ≤ 0))).map
      (fun item => item.1)
    rw [List.map_map] at hperm
    have hid : List.map ((fun item : Match × String => item.1) ∘ fun m : Match =>
        (m, (fetchXmlDetailsSafe fetchXml parseDate m.inbound.id).invoiceNumber)) ms = ms :=
      List.map_id'' (fun x => rfl) ms
    rw [hid] at hperm
    exact hperm

/-- C8 witness: the theorem's three parts at concrete inputs: both
numbers parse, one does not parse, and a concrete sort permutation. -/
theorem sortMatchesByInvoiceNumber_spec_witness :
    compareInvoiceNumbers (fun _ _ => (-1 : Int)) "12" "7seven" = 12 - 7 ∧
    compareInvoiceNumbers (fun _ _ => (-1 : Int)) "abc" "12" = -1 ∧
    (sortMatchesByInvoiceNumber (fun _ => none) (fun _ => JsDate.invalid)
      (fun _ _ => (-1 : Int))
      [⟨⟨"in1", "T1", ⟨2025, 10, 1, 0⟩⟩, ⟨"out1", "T1"⟩, "T1"⟩,
       ⟨⟨"in2", "T2", ⟨2025, 10, 2, 0⟩⟩, ⟨"out2", "T2"⟩, "T2"⟩]).Perm
      [⟨⟨"in1", "T1", ⟨2025, 10, 1, 0⟩⟩, ⟨"out1", "T1"⟩, "T1"⟩,
       ⟨⟨"in2", "T2", ⟨2025, 10, 2, 0⟩⟩, ⟨"out2", "T2"⟩, "T2"⟩] := by
  refine ⟨?_, ?_, ?_⟩
  · exact (sortMatchesByInvoiceNumber_spec (fun _ _ => (-1 : Int)) "12" "7seven").1
      12 7 (by decide) (by decide)
  · exact (sortMatchesByInvoiceNumber_spec (fun _ _ => (-1 : Int)) "abc" "12").2.1
      (Or.inl (by decide))
  · exact (sortMatchesByInvoiceNumber_spec (fun _ _ => (-1 : Int)) "" "").2.2
      (fun _ => none) (fun _ => JsDate.invalid)
      [⟨⟨"in1", "T1", ⟨2025, 10, 1, 0⟩⟩, ⟨"out1", "T1"⟩, "T1"⟩,
       ⟨⟨"in2", "T2", ⟨2025, 10, 2, 0⟩⟩, ⟨"out2", "T2"⟩, "T2"⟩]

theorem getLatestStatus_code_mem {l : List StatusRecord} {c : String}
    (h : (getLatestStatus l).code = c) (hne : c ≠ "-") :
    ∃ r, r ∈ l ∧ r.code = c := by
  cases l with
  | nil => exact absurd h.symm hne
  | cons s rest =>
    refine ⟨latestBy s rest, latestBy_mem rest s, ?_⟩
    have h2 : jsOrDash (latestBy s rest).code = c := h
    unfold jsOrDash at h2
    by_cases hz : (latestBy s rest).code = ""
    · rw [if_pos hz] at h2
      exact absurd h2.symm hne
    · rw [if_neg hz] at h2
      exact h2

theorem mem_sendList {analysis : List AnalysisEntry} {g : AnalysisEntry → Bool}
    {docId : String}
    (h : docId ∈ ((analysis.filter g).filter
      (fun a => a.analysis.needsFinalStatus)).map (fun a => a.documentId)) :
    ∃ a, a ∈ analysis ∧ a.documentId = docId ∧ a.analysis.needsFinalStatus = true := by
  obtain ⟨a, ha, hid⟩ := List.mem_map.mp h
  have h1 := List.mem_filter.mp ha
  have h2 := List.mem_filter.mp h1.1
  exact ⟨a, h2.1, hid, h1.2⟩

theorem mem_attemptedFinalStatusDocs {inboundDocs : List InboundDoc}
    {outboundDocs : List OutboundDoc} {statusesOf : String → List StatusRecord}
    {fetchXml : String → Option String} {parseDate : String → JsDate} {docId : String}
    (h : docId ∈ attemptedFinalStatusDocs inboundDocs outboundDocs statusesOf
      fetchXml parseDate) :
    (analyzeDocument (statusesOf docId)).needsFinalStatus = true := by
  simp only [attemptedFinalStatusDocs] at h
  split at h
  · simp at h
  · rw [List.mem_append] at h
    have key : ∃ a, a ∈ analyzeAllDocuments statusesOf
        (findMatches inboundDocs (buildOutboundMap outboundDocs)) ∧
        a.documentId = docId ∧ a.analysis.needsFinalStatus = true := by
      rcases h with h | h
      · split at h
        · exact mem_sendList h
        · simp at h
      · split at h
        · exact mem_sendList h
        · simp at h
    obtain ⟨a, ha, hid, hneeds⟩ := key
    obtain ⟨m, hm, hma⟩ := List.mem_map.mp ha
    rw [← hma] at hid hneeds
    have hid2 : m.inbound.id = docId := hid
    have hneeds2 : (analyzeDocument (statusesOf m.inbound.id)).needsFinalStatus = true := hneeds
    rw [hid2] at hneeds2
    exact hneeds2

/-- C1: for every matched inbound document, if the latest record of its
fetched business-status list has code `accepted` or `rejected`, then the
report generator never attempts a status submission for that document
during the run. -/
theorem no_submission_after_final (inboundDocs : List InboundDoc)
    (outboundDocs : List OutboundDoc) (statusesOf : String → List StatusRecord)
    (fetchXml : String → Option String) (parseDate : String → JsDate) (docId : String)
    (_hmatched : ∃ m, m ∈ findMatches inboundDocs (buildOutboundMap outboundDocs) ∧
      m.inbound.id = docId)
    (hfinal : (getLatestStatus (statusesOf docId)).code = "accepted" ∨
      (getLatestStatus (statusesOf docId)).code = "rejected") :
    docId ∉ attemptedFinalStatusDocs inboundDocs outboundDocs statusesOf
      fetchXml parseDate := by
  intro hmem
  have hneeds := mem_attemptedFinalStatusDocs hmem
  have hrec : ∃ r, r ∈ statusesOf docId ∧ (r.code = "accepted" ∨ r.code = "rejected") := by
    rcases hfinal with h | h
    · obtain ⟨r, hr, hc⟩ := getLatestStatus_code_mem h (by decide)
      exact ⟨r, hr, Or.inl hc⟩
    · obtain ⟨r, hr, hc⟩ := getLatestStatus_code_mem h (by decide)
      exact ⟨r, hr, Or.inr hc⟩
  obtain ⟨r, hr, hc⟩ := hrec
  have hany : hasAnyStatus (statusesOf docId) finalStatuses = true := by
    refine List.any_eq_true.mpr ⟨r, hr, ?_⟩
    show finalStatuses.contains r.code = true
    rcases hc with hc | hc <;> rw [hc] <;> decide
  have hfalse : (analyzeDocument (statusesOf docId)).needsFinalStatus = false := by
    simp [analyzeDocument, hany]
  rw [hneeds] at hfalse
  exact absurd hfalse (by decide)

/-- C1 witness: a matched document whose only status record is already
`accepted` receives no submission during the run. -/
theorem no_submission_after_final_witness :
    "in1" ∉ attemptedFinalStatusDocs [⟨"in1", "T1", ⟨2025, 10, 1, 0⟩⟩] [⟨"out1", "T1"⟩]
      (fun _ => [⟨"accepted", "OK", 100⟩]) (fun _ => none) (fun _ => JsDate.invalid) :=
  no_submission_after_final [⟨"in1", "T1", ⟨2025, 10, 1, 0⟩⟩] [⟨"out1", "T1"⟩]
    (fun _ => [⟨"accepted", "OK", 100⟩]) (fun _ => none) (fun _ => JsDate.invalid) "in1"
    ⟨⟨⟨"in1", "T1", ⟨2025, 10, 1, 0⟩⟩, ⟨"out1", "T1"⟩, "T1"⟩, by decide, rfl⟩
    (Or.inl (by decide))

end Peppol
